import Mathlib

/-!
Shallow embedding of the prompterdb request-routing / query-orchestration
pipeline (Go).  Strings are modelled as `List Char`; Go's multi-value
returns `(values, error)` are modelled as explicit pairs with `Option`
errors; external I/O (database drivers, the JSON decoder of the standard
library, the generation backend) is modelled by oracle functions threaded
through an environment record, so every repository function stays a pure,
executable Lean definition whose control flow mirrors the source.
-/

namespace PrompterDB

/-- Go strings, modelled as lists of characters. -/
abbrev Str := List Char

/-- Coerce a Lean string literal to the `Str` model. -/
def cs (s : String) : Str := s.data

/-- Code points with the Unicode White_Space property, the set recognised by
Go's `unicode.IsSpace` (used by `strings.TrimSpace` and `strings.Fields`). -/
def spaceCodes : List Nat :=
  [9, 10, 11, 12, 13, 32, 0x85, 0xA0, 0x1680,
   0x2000, 0x2001, 0x2002, 0x2003, 0x2004, 0x2005, 0x2006, 0x2007,
   0x2008, 0x2009, 0x200A, 0x2028, 0x2029, 0x202F, 0x205F, 0x3000]

/-- Go `unicode.IsSpace`. -/
def goIsSpace (c : Char) : Bool := decide (c.toNat ∈ spaceCodes)

/-- Go `unicode.ToLower`, restricted to the ASCII case mapping (the
repository's validator keywords and schema texts are ASCII; non-ASCII
characters are treated as case-less by this embedding). -/
def goToLowerChar (c : Char) : Char :=
  if 65 ≤ c.toNat ∧ c.toNat ≤ 90 then Char.ofNat (c.toNat + 32) else c

/-- Go `strings.ToLower`. -/
def goToLower (s : Str) : Str := s.map goToLowerChar

/-- Go `strings.TrimSpace`: drop White_Space characters from both ends. -/
def goTrim (s : Str) : Str :=
  ((s.dropWhile goIsSpace).reverse.dropWhile goIsSpace).reverse

/-- Split on the newline character, as Go's `strings.Split(s, "\n")`:
always returns at least one (possibly empty) piece. -/
def splitLines : Str → List Str
  | [] => [[]]
  | c :: rest =>
    match splitLines rest with
    | [] => [[c]]
    | l :: ls => if c = '\n' then [] :: l :: ls else (c :: l) :: ls

/-- Go `strings.Join(lines, "\n")`. -/
def joinLines (ls : List Str) : Str := List.intercalate ['\n'] ls

/-- Go `strings.Fields`: maximal runs of non-White_Space characters. -/
def goFields (s : Str) : List Str :=
  (splitOnSpace s).filter (fun w => w ≠ []) where
  splitOnSpace : Str → List Str
    | [] => [[]]
    | c :: rest =>
      match splitOnSpace rest with
      | [] => [[c]]
      | l :: ls => if goIsSpace c then [] :: l :: ls else (c :: l) :: ls

/-! ### llm/validator.go -/

/-- Source `llm/validator.go`: the `blocked` keyword list of `ValidateSQL`,
in source order. -/
def blockedKeywords : List Str :=
  [cs "drop", cs "truncate", cs "alter", cs "delete", cs "create",
   cs "grant", cs "revoke"]

/-- Source `llm/validator.go`: the `validOps` list of `ValidateSQL`. -/
def validSQLOps : List Str := [cs "select", cs "insert", cs "update"]

/-- Source `llm/validator.go` `ValidateSQL`: lower-case the trimmed query,
reject on the first blocked keyword occurring as a substring, otherwise
require one of the valid operations as a prefix.  `none` models Go `nil`,
`some msg` models a non-nil error. -/
def ValidateSQL (query : Str) : Option Str :=
  match blockedKeywords.find?
      (fun kw => decide (kw <:+: goToLower (goTrim query))) with
  | some kw => some (cs "query contains forbidden operation: " ++ kw)
  | none =>
    if validSQLOps.any
        (fun op => decide (op <+: goToLower (goTrim query))) then none
    else some (cs "you are not allowed to perform this operation")

/-- JSON values, as produced by Go's `encoding/json` unmarshalling into
`map[string]interface\x7b\x7d` (numbers kept as integers; the claims never
inspect numeric values). -/
inductive Json where
  | null : Json
  | bool (b : Bool) : Json
  | num (n : Int) : Json
  | jstr (s : Str) : Json
  | arr (xs : List Json) : Json
  | obj (fields : List (Str × Json)) : Json

/-- Field lookup in a decoded JSON object.  Go's decoder keeps the last
duplicate key, hence the reversed lookup. -/
def jlookup (fields : List (Str × Json)) (key : Str) : Option Json :=
  fields.reverse.lookup key

/-- Source `llm/validator.go`: the `allowedOps` list of `ValidateMongo`
(note: `delete` is absent in the source). -/
def allowedMongoOps : List Str :=
  [cs "find", cs "insert", cs "update", cs "aggregate"]

/-- Source `llm/validator.go` `ValidateMongo`, modelled after the
`json.Unmarshal` step: the argument is the decoder's outcome (`none` for a
parse failure or a non-object top level, both of which make Go's unmarshal
into a map fail).  Field checks follow the source order: operation present,
collection present, operation a string, operation allowed, operation-specific
companion field, collection a string. -/
def ValidateMongo (parsed : Option Json) : Option Str :=
  match parsed with
  | some (Json.obj fields) =>
    match jlookup fields (cs "operation") with
    | none => some (cs "missing required field: operation")
    | some opJ =>
      match jlookup fields (cs "collection") with
      | none => some (cs "missing required field: collection")
      | some collJ =>
        match opJ with
        | Json.jstr opStr =>
          if allowedMongoOps.contains opStr then
            match companionError fields opStr with
            | some e => some e
            | none =>
              match collJ with
              | Json.jstr _ => none
              | _ => some (cs "collection must be a string")
          else some (cs "invalid operation: " ++ opStr)
        | _ => some (cs "operation must be a string")
  | _ => some (cs "invalid JSON format")
where
  /-- The `switch opStr` block of `ValidateMongo`. -/
  companionError (fields : List (Str × Json)) (opStr : Str) : Option Str :=
    if opStr = cs "find" then
      if (jlookup fields (cs "filter")).isNone then
        some (cs "find operation requires filter field") else none
    else if opStr = cs "insert" then
      if (jlookup fields (cs "document")).isNone then
        some (cs "insert operation requires document field") else none
    else if opStr = cs "update" then
      if (jlookup fields (cs "filter")).isNone then
        some (cs "update operation requires filter field")
      else if (jlookup fields (cs "update")).isNone then
        some (cs "update operation requires update field") else none
    else if opStr = cs "aggregate" then
      if (jlookup fields (cs "pipeline")).isNone then
        some (cs "aggregate operation requires pipeline field") else none
    else none

/-! ### ask.go text cleaning -/

/-- A line skipped by `cleanLLMQuery`: starts or ends with three backticks. -/
def isFenceLine (l : Str) : Bool :=
  decide (cs "```" <+: l) || decide (cs "```" <:+ l)

/-- Source `ask.go` `cleanLLMQuery`: split into lines, trim each line, drop
code-fence lines, re-join, trim the whole. -/
def cleanLLMQuery (raw : Str) : Str :=
  goTrim (joinLines (((splitLines raw).map goTrim).filter
    (fun l => !isFenceLine l)))

/-- Go `strings.TrimPrefix`. -/
def goTrimPrefix (s pre : Str) : Str :=
  if pre <+: s then s.drop pre.length else s

/-- Go `strings.TrimSuffix`. -/
def goTrimSuffix (s suf : Str) : Str :=
  if suf <:+ s then s.take (s.length - suf.length) else s

/-- Go `strings.Index(s, "\x7b")`, the byte index of the first `{`
character, `-1` when absent (here: `none`). -/
def indexOfBrace (s : Str) : Option Nat := s.findIdx? (fun c => c = '{')

/-- Source `ask.go` `cleanMongoText`: strip fences, drop any preamble before
the first `\x7b`, and cut at the first line starting (lower-cased) with
"note" or "however". -/
def cleanMongoText (response : Str) : Str :=
  let r := goTrim response
  let r := goTrimPrefix r (cs "```json")
  let r := goTrimPrefix r (cs "```")
  let r := goTrimSuffix r (cs "```")
  let r := goTrim r
  let r := match indexOfBrace r with
    | some idx => if 0 < idx then r.drop idx else r
    | none => r
  joinLines ((splitLines r).takeWhile (fun line =>
    !(decide (cs "note" <+: goToLower line) ||
      decide (cs "however" <+: goToLower line))))

/-! ### cache/schema_cache.go -/

/-- The schema cache, a Go `map[string]string` modelled as an association
list with map semantics (at most one entry per key, maintained by
`CacheSchema`). -/
abbrev SchemaCache := List (Str × Str)

/-- Source `cache/schema_cache.go` `CacheSchema`: a no-op on an empty name,
otherwise the map assignment `schemaCache[dbName] = schema` (remove any
prior entry for the key, add the new one). -/
def CacheSchema (cache : SchemaCache) (dbName schema : Str) : SchemaCache :=
  if dbName = [] then cache
  else (cache.filter (fun e => e.1 ≠ dbName)) ++ [(dbName, schema)]

/-- Source `cache/schema_cache.go` `GetCachedSchema`: empty name short
circuits to ("", false); otherwise the Go two-valued map read. -/
def GetCachedSchema (cache : SchemaCache) (dbName : Str) : Str × Bool :=
  if dbName = [] then ([], false)
  else
    match cache.lookup dbName with
    | some s => (s, true)
    | none => ([], false)

/-- Source `cache/schema_cache.go` `GetCacheSize`: `len(schemaCache)`. -/
def GetCacheSize (cache : SchemaCache) : Nat := cache.length

/-! ### db adapters (db/postgres.go, db/mongo.go)

Every driver interaction (connection pool call, cursor decoding) is
collapsed into one oracle outcome per adapter call, carried by `DBEnv`;
the adapters' own argument checks, client lookups and error wrapping are
embedded from the source. -/

/-- One result row/document: Go `map[string]interface\x7b\x7d`. -/
abbrev Rec := List (Str × Json)

/-- A Go `([]map[string]interface\x7b\x7d, error)` return value. -/
abbrev GoRes := List Rec × Option Str

/-- Oracle outcomes for the external database drivers. -/
structure DBEnv where
  pgPoolExists : Str → Bool
  pgQueryOutcome : Str → Str → Except Str (List Rec)
  pgExecOutcome : Str → Str → Except Str Int
  mongoClientExists : Str → Bool
  mongoFindOutcome : Str → Str → Str → Option Json → Except Str (List Rec)
  mongoInsertOutcome : Str → Str → Str → Option Json → Except Str Unit
  mongoUpdateOutcome : Str → Str → Str → Option Json → Option Json →
    Except Str (Int × Int)
  mongoDeleteOutcome : Str → Str → Str → Option Json → Except Str Int
  mongoAggOutcome : Str → Str → Str → Option (List Json) →
    Except Str (List Rec)

/-- Source `db/postgres.go` `QueryPostgres`: argument checks, pool lookup,
then the driver query (row scanning folded into the oracle outcome). -/
def QueryPostgres (env : DBEnv) (name query : Str) : GoRes :=
  if name = [] then ([], some (cs "connection name cannot be empty"))
  else if query = [] then ([], some (cs "query cannot be empty"))
  else if !env.pgPoolExists name then
    ([], some (cs "postgres pool not found for: " ++ name))
  else
    match env.pgQueryOutcome name query with
    | Except.error e => ([], some (cs "query execution failed: " ++ e))
    | Except.ok rows => (rows, none)

/-- Source `db/postgres.go` `Execute`: returns `(rowsAffected, error)`. -/
def Execute (env : DBEnv) (name command : Str) : Int × Option Str :=
  if name = [] then (0, some (cs "connection name cannot be empty"))
  else if command = [] then (0, some (cs "command cannot be empty"))
  else if !env.pgPoolExists name then
    (0, some (cs "postgres pool not found for: " ++ name))
  else
    match env.pgExecOutcome name command with
    | Except.error e => (0, some (cs "execution failed: " ++ e))
    | Except.ok n => (n, none)

/-- Source `db/mongo.go` `QueryMongo`: argument checks, client lookup, then
the driver find (cursor decoding folded into the oracle outcome; the
`ErrNoDocuments` special case is the oracle returning `ok []`). -/
def QueryMongo (env : DBEnv) (name dbName collection : Str)
    (filter : Option Json) : GoRes :=
  if name = [] then ([], some (cs "connection name cannot be empty"))
  else if dbName = [] then ([], some (cs "invalid database name"))
  else if collection = [] then ([], some (cs "invalid collection name"))
  else if !env.mongoClientExists name then
    ([], some (cs "mongo client not found: " ++ name))
  else
    match env.mongoFindOutcome name dbName collection filter with
    | Except.error e => ([], some (cs "MongoDB find failed: " ++ e))
    | Except.ok rows => (rows, none)

/-- Source `db/mongo.go` `InsertMongo`. -/
def InsertMongo (env : DBEnv) (name dbName collection : Str)
    (document : Option Json) : GoRes :=
  if name = [] ∨ dbName = [] ∨ collection = [] then
    ([], some (cs "invalid insert parameters"))
  else if !env.mongoClientExists name then
    ([], some (cs "mongo client not found: " ++ name))
  else
    match env.mongoInsertOutcome name dbName collection document with
    | Except.error e => ([], some (cs "MongoDB insert failed: " ++ e))
    | Except.ok _ =>
      ([[(cs "status", Json.jstr (cs "success")),
         (cs "operation", Json.jstr (cs "insert"))]], none)

/-- Source `db/mongo.go` `UpdateMongo`. -/
def UpdateMongo (env : DBEnv) (name dbName collection : Str)
    (filter update : Option Json) : GoRes :=
  if name = [] ∨ dbName = [] ∨ collection = [] then
    ([], some (cs "invalid update parameters"))
  else if !env.mongoClientExists name then
    ([], some (cs "mongo client not found: " ++ name))
  else
    match env.mongoUpdateOutcome name dbName collection filter update with
    | Except.error e => ([], some (cs "MongoDB update failed: " ++ e))
    | Except.ok nm =>
      ([[(cs "status", Json.jstr (cs "success")),
         (cs "matched", Json.num nm.1), (cs "modified", Json.num nm.2)]],
       none)

/-- Source `db/mongo.go` `DeleteMongo`. -/
def DeleteMongo (env : DBEnv) (name dbName collection : Str)
    (filter : Option Json) : GoRes :=
  if name = [] ∨ dbName = [] ∨ collection = [] then
    ([], some (cs "invalid delete parameters"))
  else if !env.mongoClientExists name then
    ([], some (cs "mongo client not found: " ++ name))
  else
    match env.mongoDeleteOutcome name dbName collection filter with
    | Except.error e => ([], some (cs "MongoDB delete failed: " ++ e))
    | Except.ok n =>
      ([[(cs "status", Json.jstr (cs "success")),
         (cs "deleted", Json.num n)]], none)

/-- Source `db/mongo.go` `AggregateMongo`. -/
def AggregateMongo (env : DBEnv) (name dbName collection : Str)
    (pipeline : Option (List Json)) : GoRes :=
  if name = [] ∨ dbName = [] ∨ collection = [] then
    ([], some (cs "invalid aggregate parameters"))
  else if !env.mongoClientExists name then
    ([], some (cs "mongo client not found: " ++ name))
  else
    match env.mongoAggOutcome name dbName collection pipeline with
    | Except.error e => ([], some (cs "MongoDB aggregate failed: " ++ e))
    | Except.ok rows => (rows, none)

/-! ### ask.go: the Ask pipeline -/

/-- Source `config/config.go` `DBConfig` (`Type` is the string-typed
`DBType`, "postgres" or "mongo"). -/
structure DBConfig where
  name : Str
  dbtype : Str
  uri : Str
  dbName : Str

/-- Source `llm/llm.go` `QueryRequest`, restricted to the fields `Ask`
populates (`CustomVars` carries at most the "Collection" entry). -/
structure QueryRequest where
  Prompt : Str
  Schema : Str
  DBType : Str
  QueryType : Str
  CollectionVar : Option Str

/-- Environment of one `Ask` call: outcomes of everything `Ask` consumes
that lives outside the orchestrator (aggregated schema text, the router,
the generation backend, the standard library JSON decoder, the registry,
per-store schema fetching, and the database drivers).  The generation
backend and the router are modelled as Go-style `(value, error)` pairs so
that no either-or shape is assumed of them. -/
structure AskEnv where
  allSchemas : Str
  route : Str → DBConfig × Option Str
  generate : QueryRequest → Str × Option Str
  jsonParse : Str → Option Json
  registeredDBs : Str → Option DBConfig
  mongoSchema : Str → Str × Option Str
  dbenv : DBEnv

/-- The per-line keyword-overlap score of `FindMostRelevantMongoCollection`:
the number of prompt words (Go `strings.Fields`) occurring as substrings of
the lower-cased line. -/
def lineScore (promptWords : List Str) (line : Str) : Nat :=
  promptWords.countP (fun w => decide (w <:+: goToLower line))

/-- The text before the first `(` of a line: Go
`strings.SplitN(line, "(", 2)[0]`. -/
def beforeParen (line : Str) : Str := line.takeWhile (fun c => c ≠ '(')

/-- The best-matching line fold of `FindMostRelevantMongoCollection`:
iterate over schema lines in order, skip empty lines, keep the first line
with a strictly higher score than any seen before. -/
def bestMongoLine (promptWords : List Str) (lines : List Str) : Str :=
  (lines.foldl
    (fun acc line =>
      if line = [] then acc
      else if lineScore promptWords line > acc.2 then
        (beforeParen line, lineScore promptWords line)
      else acc)
    ([], 0)).1

/-- Source `ask.go` `FindMostRelevantMongoCollection`: registry and schema
guards, then the line scan. -/
def FindMostRelevantMongoCollection (env : AskEnv) (prompt dbName : Str) :
    Str :=
  let p := goToLower prompt
  match env.registeredDBs dbName with
  | none => []
  | some cfg =>
    if cfg.dbtype ≠ cs "mongo" then []
    else
      let (schema, err) := env.mongoSchema dbName
      if err.isSome ∨ schema = [] then []
      else bestMongoLine (goFields p) (splitLines schema)

/-- The `mongoQuery` struct `Ask` decodes the cleaned response into. -/
structure MongoQuery where
  operation : Str
  collection : Str
  filter : Option Json
  document : Option Json
  update : Option Json
  pipeline : Option (List Json)

/-- Decoding of one string-typed struct field by `encoding/json`: an absent
or null field keeps the zero value, a string is taken as is, any other type
is an unmarshalling error. -/
def getStrField (fields : List (Str × Json)) (key : Str) : Option Str :=
  match jlookup fields key with
  | none => some []
  | some Json.null => some []
  | some (Json.jstr s) => some s
  | some _ => none

/-- Decoding of one map-typed struct field by `encoding/json`. -/
def getObjField (fields : List (Str × Json)) (key : Str) :
    Option (Option Json) :=
  match jlookup fields key with
  | none => some none
  | some Json.null => some none
  | some (Json.obj o) => some (some (Json.obj o))
  | some _ => none

/-- Decoding of the array-typed `pipeline` field by `encoding/json`. -/
def getArrField (fields : List (Str × Json)) (key : Str) :
    Option (Option (List Json)) :=
  match jlookup fields key with
  | none => some none
  | some Json.null => some none
  | some (Json.arr xs) => some (some xs)
  | some _ => none

/-- `json.Unmarshal` of the cleaned response into the `mongoQuery` struct:
`none` is a decoding error, otherwise missing fields hold Go zero values. -/
def decodeMongoQuery (j : Json) : Option MongoQuery :=
  match j with
  | Json.obj fields => do
    let op ← getStrField fields (cs "operation")
    let coll ← getStrField fields (cs "collection")
    let filt ← getObjField fields (cs "filter")
    let doc ← getObjField fields (cs "document")
    let upd ← getObjField fields (cs "update")
    let pipe ← getArrField fields (cs "pipeline")
    pure ⟨op, coll, filt, doc, upd, pipe⟩
  | _ => none

/-- The `config.Postgres` branch of `Ask` (ask.go lines 59-110): generate,
clean, validate, then either the read path or the write path; the
visualization block only logs and does not alter the returned pair. -/
def askPostgres (env : AskEnv) (targetDB : DBConfig) (userPrompt : Str) :
    GoRes :=
  let req : QueryRequest :=
    { Prompt := userPrompt, Schema := env.allSchemas,
      DBType := goToLower targetDB.dbtype, QueryType := cs "sql",
      CollectionVar := none }
  let (respQuery, genErr) := env.generate req
  match genErr with
  | some e => ([], some (cs "llm generation failed: " ++ e))
  | none =>
    let query := cleanLLMQuery respQuery
    match ValidateSQL query with
    | some e => ([], some (cs "query validation failed: " ++ e))
    | none =>
      if cs "select" <+: goToLower (goTrim query) then
        QueryPostgres env.dbenv targetDB.name query
      else
        match Execute env.dbenv targetDB.name query with
        | (_, some e) => ([], some (cs "query execution failed: " ++ e))
        | (n, none) => ([[(cs "rows_affected", Json.num n)]], none)

/-- The `config.Mongo` branch of `Ask` (ask.go lines 112-167): resolve a
collection guess BEFORE generation and fail at once when it is empty;
generate, clean, validate, decode, substitute the guess for an empty
payload collection, dispatch on the operation. -/
def askMongo (env : AskEnv) (targetDB : DBConfig) (userPrompt : Str) :
    GoRes :=
  let collection := FindMostRelevantMongoCollection env userPrompt
    targetDB.name
  if collection = [] then
    ([], some (cs "could not infer MongoDB collection name from prompt"))
  else
    let req : QueryRequest :=
      { Prompt := userPrompt, Schema := env.allSchemas,
        DBType := goToLower targetDB.dbtype, QueryType := cs "mongo",
        CollectionVar := some collection }
    let (respQuery, genErr) := env.generate req
    match genErr with
    | some e => ([], some (cs "mongo query generation failed: " ++ e))
    | none =>
      let cleanedQuery := cleanMongoText respQuery
      match ValidateMongo (env.jsonParse cleanedQuery) with
      | some e => ([], some (cs "mongo query validation failed: " ++ e))
      | none =>
        match (env.jsonParse cleanedQuery).bind decodeMongoQuery with
        | none =>
          ([], some (cs "error parsing LLM Mongo response: " ++ cleanedQuery))
        | some mq0 =>
          let mq := if mq0.collection = [] then
            { mq0 with collection := collection } else mq0
          if mq.operation = cs "find" then
            QueryMongo env.dbenv targetDB.name targetDB.dbName mq.collection
              mq.filter
          else if mq.operation = cs "insert" then
            InsertMongo env.dbenv targetDB.name targetDB.dbName mq.collection
              mq.document
          else if mq.operation = cs "update" then
            UpdateMongo env.dbenv targetDB.name targetDB.dbName mq.collection
              mq.filter mq.update
          else if mq.operation = cs "delete" then
            DeleteMongo env.dbenv targetDB.name targetDB.dbName mq.collection
              mq.filter
          else if mq.operation = cs "aggregate" then
            AggregateMongo env.dbenv targetDB.name targetDB.dbName
              mq.collection mq.pipeline
          else
            ([], some (cs "unsupported Mongo operation: " ++ mq.operation))

/-- Source `ask.go` `Ask`: input checks, routing, then the branch on the
target store kind. -/
def Ask (env : AskEnv) (userPrompt : Str) : GoRes :=
  if userPrompt = [] then ([], some (cs "prompt is empty"))
  else if env.allSchemas = [] then
    ([], some (cs "schema is empty - call IntrospectAllSchemas() first"))
  else
    let (targetDB, routeErr) := env.route userPrompt
    match routeErr with
    | some e => ([], some (cs "failed to determine target database: " ++ e))
    | none =>
      if targetDB.name = [] ∨ targetDB.dbtype = [] then
        ([], some (cs "invalid database configuration"))
      else if targetDB.dbtype = cs "postgres" then
        askPostgres env targetDB userPrompt
      else if targetDB.dbtype = cs "mongo" then
        askMongo env targetDB userPrompt
      else ([], some (cs "unsupported DB type: " ++ targetDB.dbtype))

/-! ### Router (spec §4.2)

The scoring router `engine.RoutePrompt(ctx, prompt) → (DBConfig, error)`
that `ask.go` calls is not among the provided sources (only its caller and
an older keyword-switch `RoutePrompt(prompt) string` are), so the router
below is modelled from the spec. -/

/-- Modelled from the spec: the named failures of the Router contract
(`EmptyPrompt`, `NoStoresRegistered`, `NoMatch`); the missing source is
`engine.RoutePrompt`. -/
inductive RouteError where
  | emptyPrompt : RouteError
  | noStoresRegistered : RouteError
  | noMatch : RouteError
deriving DecidableEq

/-- Modelled from the spec: one registered store as the Router sees it, its
name plus the outcome of its schema fetch (`none` models a failed fetch). -/
structure RouterStore where
  name : Str
  schema : Option Str
deriving DecidableEq

/-- Modelled from the spec: punctuation stripped from keyword edges (the
spec fixes no concrete set; common ASCII punctuation is used). -/
def isPunct (c : Char) : Bool :=
  decide (c ∈ [',', '.', ';', ':', '!', '?', '(', ')', '[', ']'])

/-- Modelled from the spec: the fixed stop-word set (the spec fixes no
concrete list; a representative one is used). -/
def stopWords : List Str :=
  [cs "the", cs "a", cs "an", cs "of", cs "in", cs "on", cs "for",
   cs "to", cs "and", cs "or", cs "is", cs "are", cs "with", cs "show",
   cs "me", cs "all", cs "find", cs "get", cs "list"]

/-- Modelled from the spec: strip surrounding punctuation from a token. -/
def stripPunct (w : Str) : Str :=
  ((w.dropWhile isPunct).reverse.dropWhile isPunct).reverse

/-- Modelled from the spec: the Keyword Set of a prompt — lower-case,
split into fields, strip punctuation, drop stop-words and empties,
de-duplicate (a set, first occurrence kept). -/
def extractKeywords (prompt : Str) : List Str :=
  (((goFields (goToLower prompt)).map stripPunct).filter
    (fun w => w ≠ [] ∧ w ∉ stopWords)).dedup

/-- Modelled from the spec: an occurrence of `kw` at offset `i` of `s`
bounded by whitespace or the string ends (a "separate word"). -/
def wholeWordAt (kw s : Str) (i : Nat) : Bool :=
  decide (kw <+: s.drop i) &&
  (decide (i = 0) || goIsSpace (s.getD (i - 1) 'x')) &&
  (decide (i + kw.length = s.length) || goIsSpace (s.getD (i + kw.length) 'x'))

/-- Modelled from the spec: how many offsets of `s` carry `kw` as a
separate word. -/
def wholeWordCount (kw s : Str) : Nat :=
  if kw = [] then 0
  else (List.range (s.length + 1)).countP (fun i => wholeWordAt kw s i)

/-- Modelled from the spec: the table-name heuristic — `kw` immediately
followed by `(` and preceded by whitespace or the string start. -/
def tableNameBonus (kw s : Str) : Bool :=
  (List.range (s.length + 1)).any (fun i =>
    decide ((kw ++ ['(']) <+: s.drop i) &&
    (decide (i = 0) || goIsSpace (s.getD (i - 1) 'x')))

/-- Modelled from the spec: the additive per-keyword score — +3 for a
separate word else +1 for a substring, +2 for the table-name bonus, +1 for
a second separate-word occurrence. -/
def keywordScore (kw s : Str) : Nat :=
  (if 1 ≤ wholeWordCount kw s then 3
   else if kw <:+: s then 1 else 0) +
  (if tableNameBonus kw s then 2 else 0) +
  (if 2 ≤ wholeWordCount kw s then 1 else 0)

/-- Modelled from the spec: a store's MatchScore — 0 when the schema fetch
failed or the text is empty, otherwise the sum over the Keyword Set against
the lower-cased schema text. -/
def storeScore (keywords : List Str) (st : RouterStore) : Nat :=
  match st.schema with
  | none => 0
  | some sch =>
    if sch = [] then 0
    else (keywords.map (fun kw => keywordScore kw (goToLower sch))).sum

/-- Modelled from the spec: `Route(prompt)` — missing source
`engine.RoutePrompt`.  Failure checks in the contract's order (empty
prompt / empty keyword set first, empty registry second), then the
strictly-highest score wins; the concurrent arrival-order tie-break is
modelled as first-in-registry-order wins (one admissible resolution of the
documented non-determinism).  `NoMatch` when every store scores 0. -/
def Route (registry : List RouterStore) (prompt : Str) :
    Except RouteError RouterStore :=
  let keywords := extractKeywords prompt
  if prompt = [] ∨ keywords = [] then Except.error RouteError.emptyPrompt
  else if registry = [] then Except.error RouteError.noStoresRegistered
  else
    match (registry.foldl
      (fun acc st =>
        if storeScore keywords st > acc.2 then (some st, storeScore keywords st)
        else acc)
      ((none : Option RouterStore), 0)).1 with
    | none => Except.error RouteError.noMatch
    | some st => Except.ok st

/-! ### Helper lemmas -/

theorem lookup_filter_ne (l : List (Str × Str)) (n : Str) :
    (l.filter (fun e => e.1 ≠ n)).lookup n = none := by
  induction l with
  | nil => rfl
  | cons a t ih =>
    obtain ⟨k, v⟩ := a
    by_cases h : k = n
    · rw [List.filter_cons_of_neg (by simp [h])]
      exact ih
    · rw [List.filter_cons_of_pos (by simp [h]), List.lookup_cons]
      rw [beq_false_of_ne (Ne.symm h)]
      exact ih

theorem lookup_append_singleton (l : List (Str × Str)) (n s : Str)
    (h : l.lookup n = none) : (l ++ [(n, s)]).lookup n = some s := by
  induction l with
  | nil => simp [List.lookup_cons]
  | cons a t ih =>
    obtain ⟨k, v⟩ := a
    by_cases ha : n = k
    · rw [List.lookup_cons, beq_iff_eq.mpr ha] at h
      simp at h
    · rw [List.cons_append, List.lookup_cons, beq_false_of_ne ha]
      rw [List.lookup_cons, beq_false_of_ne ha] at h
      exact ih h

/-! ### C9: schema cache Put semantics -/

/-- C9: `CacheSchema` with an empty name leaves every subsequent
`GetCachedSchema` and the cache size unchanged; with a non-empty name `n`
and text `s` it overwrites any prior entry so that `GetCachedSchema n`
returns `(s, true)`. -/
theorem CacheSchema_contract (cache : SchemaCache) (n s q : Str) :
    (GetCachedSchema (CacheSchema cache [] s) q = GetCachedSchema cache q ∧
      GetCacheSize (CacheSchema cache [] s) = GetCacheSize cache) ∧
    (n ≠ [] → GetCachedSchema (CacheSchema cache n s) n = (s, true)) := by
  constructor
  · constructor <;> simp [CacheSchema]
  · intro hn
    unfold CacheSchema GetCachedSchema
    rw [if_neg (by simpa using hn), if_neg hn,
      lookup_append_singleton _ _ _ (lookup_filter_ne cache n)]

/-- C9 witness: a concrete overwrite observed through `GetCachedSchema`. -/
theorem CacheSchema_contract_witness :
    cs "students_db" ≠ ([] : Str) ∧
    GetCachedSchema
      (CacheSchema [(cs "students_db", cs "old")] (cs "students_db")
        (cs "students(id, name)"))
      (cs "students_db") = (cs "students(id, name)", true) :=
  ⟨by decide,
    (CacheSchema_contract [(cs "students_db", cs "old")] (cs "students_db")
      (cs "students(id, name)") (cs "students_db")).2 (by decide)⟩

/-! ### C1: ValidateMongo on delete payloads -/

/-- The fields of a well-formed delete payload (operation `delete`,
non-empty collection, filter present). -/
def deletePayloadFields : List (Str × Json) :=
  [(cs "operation", Json.jstr (cs "delete")),
   (cs "collection", Json.jstr (cs "courses")),
   (cs "filter", Json.obj [])]

/-- C1 counterexample: `ValidateMongo` does NOT accept a delete payload —
the source's `allowedOps` list omits `delete`, so this concrete payload
with operation `delete`, non-empty collection and a filter field is
rejected with an invalid-operation error rather than accepted. -/
theorem ValidateMongo_delete_cex :
    jlookup deletePayloadFields (cs "operation") =
      some (Json.jstr (cs "delete")) ∧
    jlookup deletePayloadFields (cs "collection") =
      some (Json.jstr (cs "courses")) ∧
    (jlookup deletePayloadFields (cs "filter")).isSome = true ∧
    ValidateMongo (some (Json.obj deletePayloadFields)) ≠ none := by
  refine ⟨rfl, rfl, rfl, ?_⟩
  decide

/-- C1 amended: for every document payload whose operation field is the
string `delete`, with a (non-empty) string collection field and a filter
field present, `ValidateMongo` rejects the payload with the error
`invalid operation: delete`; the operations the validator accepts are
exactly find, insert, update and aggregate. -/
theorem ValidateMongo_delete_rejected (fields : List (Str × Json)) (c : Str)
    (hop : jlookup fields (cs "operation") = some (Json.jstr (cs "delete")))
    (hcoll : jlookup fields (cs "collection") = some (Json.jstr c))
    (_hc : c ≠ []) (_hfilter : (jlookup fields (cs "filter")).isSome) :
    ValidateMongo (some (Json.obj fields)) =
      some (cs "invalid operation: delete") := by
  simp only [ValidateMongo]
  rw [hop, hcoll]
  simp only []
  rw [if_neg (by decide)]
  decide

/-- C1 amended witness: the rejection observed on the concrete payload. -/
theorem ValidateMongo_delete_rejected_witness :
    ValidateMongo (some (Json.obj deletePayloadFields)) =
      some (cs "invalid operation: delete") :=
  ValidateMongo_delete_rejected deletePayloadFields (cs "courses") rfl rfl
    (by decide) rfl

/-! ### Character-level lemmas -/

theorem toNat_charOfNat (n : Nat) (h : n.isValidChar) :
    (Char.ofNat n).toNat = n := by
  unfold Char.ofNat Char.toNat
  simp only [Char.ofNatAux, h, dite_true]
  rfl

theorem goIsSpace_goToLowerChar (c : Char) :
    goIsSpace (goToLowerChar c) = goIsSpace c := by
  unfold goToLowerChar
  split
  · rename_i h
    have hv : (c.toNat + 32).isValidChar := Or.inl (by omega)
    unfold goIsSpace
    rw [toNat_charOfNat _ hv]
    have m1 : ¬ (c.toNat + 32) ∈ spaceCodes := by
      simp only [spaceCodes, List.mem_cons, List.not_mem_nil, or_false]
      omega
    have m2 : ¬ c.toNat ∈ spaceCodes := by
      simp only [spaceCodes, List.mem_cons, List.not_mem_nil, or_false]
      omega
    simp [m1, m2]
  · rfl

theorem goTrim_goToLower (s : Str) :
    goTrim (goToLower s) = goToLower (goTrim s) := by
  have hcomp : (goIsSpace ∘ goToLowerChar) = goIsSpace :=
    funext goIsSpace_goToLowerChar
  unfold goTrim goToLower
  rw [List.dropWhile_map, hcomp, ← List.map_reverse, List.dropWhile_map,
    hcomp, ← List.map_reverse]

theorem infix_dropWhile (p : Char → Bool) (c0 : Char) (kw' s : Str)
    (hc0 : p c0 = false) (h : (c0 :: kw') <:+: s) :
    (c0 :: kw') <:+: s.dropWhile p := by
  obtain ⟨u, v, rfl⟩ := h
  rw [List.append_assoc, List.dropWhile_append]
  split
  · rw [List.cons_append, List.dropWhile_cons_of_neg (by simp [hc0])]
    exact ⟨[], v, by simp⟩
  · exact ⟨List.dropWhile p u, v, by simp⟩

theorem infix_goTrim (kw s : Str) (hne : kw ≠ [])
    (hns : ∀ c ∈ kw, goIsSpace c = false) (h : kw <:+: s) :
    kw <:+: goTrim s := by
  obtain ⟨c0, kw', rfl⟩ := List.exists_cons_of_ne_nil hne
  unfold goTrim
  have h1 : (c0 :: kw') <:+: s.dropWhile goIsSpace :=
    infix_dropWhile _ _ _ _ (hns c0 (by simp)) h
  have h2 : (c0 :: kw').reverse <:+: (s.dropWhile goIsSpace).reverse :=
    List.reverse_infix.mpr h1
  have hne2 : (c0 :: kw').reverse ≠ [] := by simp
  obtain ⟨d0, r', hr⟩ := List.exists_cons_of_ne_nil hne2
  have hd0 : goIsSpace d0 = false := by
    have hmem : d0 ∈ (c0 :: kw').reverse := by rw [hr]; simp
    exact hns d0 (List.mem_reverse.mp hmem)
  rw [hr] at h2
  have h3 := infix_dropWhile goIsSpace d0 r' _ hd0 h2
  rw [← hr] at h3
  have h4 := List.reverse_infix.mpr h3
  simpa using h4

/-! ### C2: ValidateSQL rejects drop/truncate/alter -/

/-- C2: every query whose lower-cased text contains `drop`, `truncate` or
`alter` (in any letter case, trimming notwithstanding) is rejected by
`ValidateSQL` with an error. -/
theorem ValidateSQL_rejects_forbidden (query : Str)
    (h : cs "drop" <:+: goToLower query ∨
      cs "truncate" <:+: goToLower query ∨
      cs "alter" <:+: goToLower query) :
    (ValidateSQL query).isSome = true := by
  have hq : ∀ kw : Str, kw ≠ [] → (∀ c ∈ kw, goIsSpace c = false) →
      kw <:+: goToLower query → kw <:+: goToLower (goTrim query) := by
    intro kw h1 h2 h3
    rw [← goTrim_goToLower]
    exact infix_goTrim kw _ h1 h2 h3
  have key : ∃ kw, kw ∈ blockedKeywords ∧
      (fun kw => decide (kw <:+: goToLower (goTrim query))) kw = true := by
    rcases h with h | h | h
    · exact ⟨cs "drop", by decide, by
        simpa using hq _ (by decide) (by decide) h⟩
    · exact ⟨cs "truncate", by decide, by
        simpa using hq _ (by decide) (by decide) h⟩
    · exact ⟨cs "alter", by decide, by
        simpa using hq _ (by decide) (by decide) h⟩
  have hfind : (blockedKeywords.find?
      (fun kw => decide (kw <:+: goToLower (goTrim query)))).isSome :=
    List.find?_isSome.mpr (by
      obtain ⟨kw, hm, hp⟩ := key
      exact ⟨kw, hm, hp⟩)
  unfold ValidateSQL
  obtain ⟨kw, hkw⟩ := Option.isSome_iff_exists.mp hfind
  rw [hkw]
  rfl

/-- C2 witness: a concrete forbidden query observed rejected. -/
theorem ValidateSQL_rejects_forbidden_witness :
    (cs "drop" <:+: goToLower (cs "DROP TABLE students") ∨
      cs "truncate" <:+: goToLower (cs "DROP TABLE students") ∨
      cs "alter" <:+: goToLower (cs "DROP TABLE students")) ∧
    (ValidateSQL (cs "DROP TABLE students")).isSome = true :=
  ⟨Or.inl (by decide),
    ValidateSQL_rejects_forbidden _ (Or.inl (by decide))⟩

/-! ### C3: ValidateSQL on select queries -/

/-- C3 counterexample: a query that begins with `select` after trimming and
lower-casing but is nonetheless rejected, because `ValidateSQL` also blocks
the substrings delete/create/grant/revoke/drop/truncate/alter anywhere in
the text — here `select drop`. -/
theorem ValidateSQL_select_cex :
    cs "select" <+: goToLower (goTrim (cs "select drop")) ∧
    ValidateSQL (cs "select drop") ≠ none := by
  constructor
  · decide
  · decide

/-- C3 amended: a query whose trimmed lower-cased text begins with `select`
is accepted by `ValidateSQL` (for any letter case of the original),
provided the text contains none of the seven blocked keywords
drop/truncate/alter/delete/create/grant/revoke as a substring. -/
theorem ValidateSQL_accepts_select (query : Str)
    (hsel : cs "select" <+: goToLower (goTrim query))
    (hblocked : ∀ kw ∈ blockedKeywords,
      ¬ kw <:+: goToLower (goTrim query)) :
    ValidateSQL query = none := by
  have hfind : blockedKeywords.find?
      (fun kw => decide (kw <:+: goToLower (goTrim query))) = none :=
    List.find?_eq_none.mpr (fun kw hm => by simpa using hblocked kw hm)
  have hany : validSQLOps.any
      (fun op => decide (op <+: goToLower (goTrim query))) = true :=
    List.any_eq_true.mpr ⟨cs "select", by decide, by simpa using hsel⟩
  unfold ValidateSQL
  rw [hfind, hany]
  rfl

/-- C3 amended witness: a concrete mixed-case select query accepted. -/
theorem ValidateSQL_accepts_select_witness :
    cs "select" <+: goToLower (goTrim (cs "SELECT id FROM students")) ∧
    ValidateSQL (cs "SELECT id FROM students") = none :=
  ⟨by decide, ValidateSQL_accepts_select _ (by decide) (by decide)⟩

/-! ### C5: Route on empty prompt / empty registry -/

/-- C5 counterexample: at the overlapping input (empty prompt AND empty
registry) `Route` fails with the empty-prompt error, not the
no-stores-registered error, so "with an empty store registry it always
fails with a no-stores-registered error" does not hold for every prompt. -/
theorem Route_empty_cex :
    Route [] [] = Except.error RouteError.emptyPrompt ∧
    Route [] [] ≠ Except.error RouteError.noStoresRegistered := by
  refine ⟨rfl, fun h => ?_⟩
  rw [show Route ([] : List RouterStore) [] =
    Except.error RouteError.emptyPrompt from rfl] at h
  simp at h

/-- C5 amended: `Route` on the empty prompt always fails with the
empty-prompt error (for every registry), and on an empty registry it fails
with the no-stores-registered error for every prompt that still yields at
least one keyword. -/
theorem Route_empty_contract (registry : List RouterStore) (prompt : Str) :
    Route registry [] = Except.error RouteError.emptyPrompt ∧
    (extractKeywords prompt ≠ [] →
      Route [] prompt = Except.error RouteError.noStoresRegistered) := by
  constructor
  · rfl
  · intro h
    have hp : prompt ≠ [] := fun hp => h (by rw [hp]; rfl)
    unfold Route
    rw [if_neg (by push_neg; exact ⟨hp, h⟩)]
    rfl

/-- C5 amended witness: a concrete keyword-bearing prompt against the
empty registry. -/
theorem Route_empty_contract_witness :
    extractKeywords (cs "students") ≠ [] ∧
    Route [] (cs "students") = Except.error RouteError.noStoresRegistered :=
  ⟨by decide, (Route_empty_contract [] (cs "students")).2 (by decide)⟩

/-! ### C4: Route and unique whole-word tokens -/

theorem infix_of_wholeWordCount (kw s : Str)
    (h : 1 ≤ wholeWordCount kw s) : kw <:+: s := by
  unfold wholeWordCount at h
  split at h
  · omega
  · have hex : ∃ i ∈ List.range (s.length + 1), wholeWordAt kw s i := by
      by_contra hno
      push_neg at hno
      have : (List.range (s.length + 1)).countP
          (fun i => wholeWordAt kw s i) = 0 := by
        refine List.countP_eq_zero.mpr ?_
        intro i hi
        simp [hno i hi]
      omega
    obtain ⟨i, _, hat⟩ := hex
    unfold wholeWordAt at hat
    have hpre : kw <+: s.drop i := by
      have := (Bool.and_eq_true _ _).mp hat
      have := (Bool.and_eq_true _ _).mp this.1
      exact of_decide_eq_true this.1
    exact hpre.isInfix.trans (s.drop_suffix i).isInfix

theorem infix_of_tableNameBonus (kw s : Str)
    (h : tableNameBonus kw s = true) : kw <:+: s := by
  unfold tableNameBonus at h
  obtain ⟨i, _, hat⟩ := List.any_eq_true.mp h
  have hpre : (kw ++ ['(']) <+: s.drop i := by
    have := (Bool.and_eq_true _ _).mp hat
    exact of_decide_eq_true this.1
  have h1 : kw <+: s.drop i := (List.prefix_append kw ['(']).trans hpre
  exact h1.isInfix.trans (s.drop_suffix i).isInfix

theorem keywordScore_eq_zero (kw s : Str) (h : ¬ kw <:+: s) :
    keywordScore kw s = 0 := by
  have h1 : ¬ 1 ≤ wholeWordCount kw s :=
    fun hc => h (infix_of_wholeWordCount kw s hc)
  have h2 : ¬ tableNameBonus kw s = true :=
    fun hc => h (infix_of_tableNameBonus kw s hc)
  unfold keywordScore
  rw [if_neg h1, if_neg h, if_neg h2, if_neg (by omega)]

theorem storeScore_eq_zero (keywords : List Str) (st : RouterStore)
    (h : ∀ kw ∈ keywords, ¬ kw <:+: goToLower (st.schema.getD [])) :
    storeScore keywords st = 0 := by
  unfold storeScore
  cases hs : st.schema with
  | none => rfl
  | some sch =>
    dsimp only
    by_cases hnil : sch = []
    · rw [if_pos hnil]
    · rw [if_neg hnil]
      refine List.sum_eq_zero ?_
      intro x hx
      obtain ⟨kw, hkw, rfl⟩ := List.mem_map.mp hx
      have hkw2 := h kw hkw
      rw [hs] at hkw2
      exact keywordScore_eq_zero _ _ (by simpa using hkw2)

theorem foldl_stays (ks : List Str) (t : List RouterStore)
    (acc : Option RouterStore × Nat)
    (h : ∀ st ∈ t, ¬ storeScore ks st > acc.2) :
    t.foldl (fun acc st =>
      if storeScore ks st > acc.2 then (some st, storeScore ks st) else acc)
      acc = acc := by
  induction t generalizing acc with
  | nil => rfl
  | cons a r ih =>
    rw [List.foldl_cons, if_neg (h a (by simp))]
    exact ih acc (fun st hst => h st (by simp [hst]))

theorem foldl_pick (ks : List Str) (l : List RouterStore) (X : RouterStore)
    (hX : X ∈ l) (hpos : 0 < storeScore ks X)
    (hz : ∀ st ∈ l, st ≠ X → storeScore ks st = 0) :
    l.foldl (fun acc st =>
      if storeScore ks st > acc.2 then (some st, storeScore ks st) else acc)
      (none, 0) = (some X, storeScore ks X) := by
  induction l with
  | nil => cases hX
  | cons a r ih =>
    by_cases ha : a = X
    · subst ha
      rw [List.foldl_cons, if_pos (by simpa using hpos)]
      refine foldl_stays ks r _ ?_
      intro st hst
      by_cases hs : st = a
      · subst hs; simp
      · have hst0 := hz st (by simp [hst]) hs
        simp only [hst0]
        omega
    · have hz_a : storeScore ks a = 0 := hz a (by simp) ha
      rw [List.foldl_cons, if_neg (by simp [hz_a])]
      have hX2 : X ∈ r := by
        rcases List.mem_cons.mp hX with h1 | h1
        · exact absurd h1.symm ha
        · exact h1
      exact ih hX2 (fun st h1 h2 => hz st (by simp [h1]) h2)

/-- C4 counterexample: the prompt `students courses` contains the token
`students`, which occurs as a whole word in exactly one store's schema
(that of `students_db`), yet `Route` selects the other store, whose score
from the remaining keyword is higher (table-name bonus plus a whole-word
occurrence of `courses`). -/
theorem Route_wholeword_cex :
    (cs "students") ∈ extractKeywords (cs "students courses") ∧
    1 ≤ wholeWordCount (cs "students") (goToLower (cs "x students y")) ∧
    wholeWordCount (cs "students")
      (goToLower (cs "courses(a) courses b")) = 0 ∧
    Route
      [⟨cs "students_db", some (cs "x students y")⟩,
       ⟨cs "lms_db", some (cs "courses(a) courses b")⟩]
      (cs "students courses") =
      Except.ok ⟨cs "lms_db", some (cs "courses(a) courses b")⟩ := by
  refine ⟨by decide, by decide, by decide, ?_⟩
  rfl

/-- C4 amended: if the prompt yields a keyword that occurs as a whole word
in one registered store's (non-empty) schema text, and no other registered
store's schema text contains any of the prompt's keywords even as a
substring, then `Route` selects that store. -/
theorem Route_unique_wholeword (registry : List RouterStore)
    (prompt t sch : Str) (X : RouterStore) (hmem : X ∈ registry)
    (hkw : t ∈ extractKeywords prompt)
    (hsch : X.schema = some sch) (hnil : sch ≠ [])
    (hww : 1 ≤ wholeWordCount t (goToLower sch))
    (hothers : ∀ st ∈ registry, st ≠ X → ∀ kw ∈ extractKeywords prompt,
      ¬ kw <:+: goToLower (st.schema.getD [])) :
    Route registry prompt = Except.ok X := by
  have hkeys : extractKeywords prompt ≠ [] := by
    intro h; rw [h] at hkw; cases hkw
  have hprompt : prompt ≠ [] := by
    intro h
    subst h
    rw [show extractKeywords [] = [] from rfl] at hkw
    cases hkw
  have hreg : registry ≠ [] := by
    intro h; rw [h] at hmem; cases hmem
  have hpos : 0 < storeScore (extractKeywords prompt) X := by
    have h3 : 3 ≤ keywordScore t (goToLower sch) := by
      unfold keywordScore
      rw [if_pos hww]
      omega
    have hmm : keywordScore t (goToLower sch) ∈
        (extractKeywords prompt).map
          (fun kw => keywordScore kw (goToLower sch)) :=
      List.mem_map.mpr ⟨t, hkw, rfl⟩
    have hle := List.single_le_sum (fun (x : Nat) _ => Nat.zero_le x) _ hmm
    unfold storeScore
    rw [hsch]
    dsimp only
    rw [if_neg hnil]
    omega
  have hz : ∀ st ∈ registry, st ≠ X →
      storeScore (extractKeywords prompt) st = 0 :=
    fun st h1 h2 => storeScore_eq_zero _ _ (hothers st h1 h2)
  unfold Route
  rw [if_neg (by push_neg; exact ⟨hprompt, hkeys⟩), if_neg hreg,
    foldl_pick (extractKeywords prompt) registry X hmem hpos hz]

/-- C4 amended witness: a two-store registry where the second store's
schema shares no substring with the prompt's keyword. -/
theorem Route_unique_wholeword_witness :
    Route
      [⟨cs "students_db", some (cs "x students y")⟩,
       ⟨cs "lms_db", some (cs "zzz(q) w")⟩]
      (cs "students") =
      Except.ok ⟨cs "students_db", some (cs "x students y")⟩ :=
  Route_unique_wholeword _ (cs "students") (cs "students")
    (cs "x students y") ⟨cs "students_db", some (cs "x students y")⟩
    (by decide) (by decide) rfl (by decide) (by decide) (by decide)

/-! ### Split/join lemmas -/

theorem splitLines_ne_nil (s : Str) : splitLines s ≠ [] := by
  induction s with
  | nil => simp [splitLines]
  | cons c rest ih =>
    cases h : splitLines rest with
    | nil => exact absurd h ih
    | cons l ls =>
      unfold splitLines
      rw [h]
      dsimp only
      split <;> simp

theorem splitLines_newline (v : Str) :
    splitLines ('\n' :: v) = [] :: splitLines v := by
  have e : splitLines ('\n' :: v) =
      match splitLines v with
      | [] => [['\n']]
      | l :: ls => if ('\n' : Char) = '\n' then [] :: l :: ls
        else ('\n' :: l) :: ls := rfl
  rw [e]
  cases h : splitLines v with
  | nil => exact absurd h (splitLines_ne_nil v)
  | cons l ls => simp

theorem splitLines_cons_ne (c : Char) (v l : Str) (ls : List Str)
    (hc : c ≠ '\n') (h : splitLines v = l :: ls) :
    splitLines (c :: v) = (c :: l) :: ls := by
  have e : splitLines (c :: v) =
      match splitLines v with
      | [] => [[c]]
      | l :: ls => if c = '\n' then [] :: l :: ls else (c :: l) :: ls := rfl
  rw [e, h]
  dsimp only
  rw [if_neg hc]

theorem splitLines_append (a b : Str) :
    splitLines (a ++ '\n' :: b) = splitLines a ++ splitLines b := by
  induction a with
  | nil =>
    rw [List.nil_append, splitLines_newline]
    rfl
  | cons c a ih =>
    by_cases hc : c = '\n'
    · subst hc
      rw [List.cons_append, splitLines_newline, splitLines_newline, ih]
      rfl
    · cases h : splitLines a with
      | nil => exact absurd h (splitLines_ne_nil a)
      | cons l ls =>
        have h2 : splitLines (a ++ '\n' :: b) = l :: (ls ++ splitLines b) := by
          rw [ih, h]; rfl
        rw [List.cons_append, splitLines_cons_ne c _ _ _ hc h2,
          splitLines_cons_ne c a l ls hc h]
        rfl

theorem joinLines_single (l : Str) : joinLines [l] = l := by
  simp [joinLines, List.intercalate]

theorem joinLines_cons (l l2 : Str) (ls : List Str) :
    joinLines (l :: l2 :: ls) = l ++ '\n' :: joinLines (l2 :: ls) := by
  simp [joinLines, List.intercalate, List.intersperse]

theorem joinLines_splitLines (s : Str) : joinLines (splitLines s) = s := by
  induction s with
  | nil => rfl
  | cons c rest ih =>
    by_cases hc : c = '\n'
    · subst hc
      rw [splitLines_newline]
      cases h : splitLines rest with
      | nil => exact absurd h (splitLines_ne_nil rest)
      | cons l ls =>
        rw [joinLines_cons]
        rw [h] at ih
        rw [ih]
        rfl
    · cases h : splitLines rest with
      | nil => exact absurd h (splitLines_ne_nil rest)
      | cons l ls =>
        rw [splitLines_cons_ne c rest l ls hc h]
        rw [h] at ih
        cases ls with
        | nil =>
          rw [joinLines_single]
          rw [joinLines_single] at ih
          rw [ih]
        | cons l2 ls2 =>
          rw [joinLines_cons]
          rw [joinLines_cons] at ih
          rw [List.cons_append, ih]

theorem splitLines_no_newline (l : Str) (h : '\n' ∉ l) :
    splitLines l = [l] := by
  induction l with
  | nil => rfl
  | cons c rest ih =>
    have hc : c ≠ '\n' := fun hcc => h (by simp [hcc])
    have hrest : splitLines rest = [rest] := ih (fun hm => h (by simp [hm]))
    rw [splitLines_cons_ne c rest rest [] hc hrest]

theorem splitLines_joinLines (ls : List Str) (hne : ls ≠ [])
    (h : ∀ l ∈ ls, '\n' ∉ l) : splitLines (joinLines ls) = ls := by
  induction ls with
  | nil => contradiction
  | cons l ls2 ih =>
    cases ls2 with
    | nil =>
      rw [joinLines_single]
      exact splitLines_no_newline l (h l (by simp))
    | cons l2 ls3 =>
      rw [joinLines_cons, splitLines_append,
        splitLines_no_newline l (h l (by simp)),
        ih (by simp) (fun x hx => h x (by simp [hx]))]
      rfl

/-! ### C7: the fence round-trip of the Clean step -/

/-- The triple-backtick wrapping of the round-trip property: a fence line,
the text, a closing fence line. -/
def wrapFence (t : Str) : Str :=
  cs "```" ++ '\n' :: (t ++ '\n' :: cs "```")

/-- C7 counterexample: the round-trip is not byte-identical for every
input — `cleanLLMQuery` also trims every line, so a line with leading
whitespace comes back shortened. -/
theorem cleanLLMQuery_wrapFence_cex :
    cleanLLMQuery (wrapFence (cs "  a")) = cs "a" ∧
    cleanLLMQuery (wrapFence (cs "  a")) ≠ cs "  a" := by
  constructor
  · decide
  · decide

/-- C7 amended: `cleanLLMQuery` applied to text wrapped in triple-backtick
fences yields the unfenced original byte-identically, provided the original
is already line-trimmed (every line equals its trimmed form, no line starts
or ends with a triple backtick, and the text as a whole is trim-fixed). -/
theorem cleanLLMQuery_wrapFence (t : Str)
    (hlines : ∀ l ∈ splitLines t, goTrim l = l ∧ isFenceLine l = false)
    (ht : goTrim t = t) :
    cleanLLMQuery (wrapFence t) = t := by
  unfold cleanLLMQuery wrapFence
  rw [splitLines_append, splitLines_append]
  have hfence : splitLines (cs "```") = [cs "```"] := rfl
  rw [hfence]
  have hmap : (splitLines t).map goTrim = splitLines t := by
    rw [List.map_congr_left (fun l hl => (hlines l hl).1)]
    exact List.map_id _
  have hfilter : (splitLines t).filter (fun l => !isFenceLine l) =
      splitLines t :=
    List.filter_eq_self.mpr (fun l hl => by simp [(hlines l hl).2])
  rw [List.map_append, List.map_append, List.filter_append,
    List.filter_append, hmap, hfilter]
  have h1 : ([cs "```"].map goTrim).filter (fun l => !isFenceLine l) =
      [] := by decide
  rw [h1, List.nil_append, List.append_nil, joinLines_splitLines, ht]

/-- C7 amended witness: a concrete two-line query round-trips. -/
theorem cleanLLMQuery_wrapFence_witness :
    goTrim (cs "select id\nfrom students") = cs "select id\nfrom students" ∧
    cleanLLMQuery (wrapFence (cs "select id\nfrom students")) =
      cs "select id\nfrom students" :=
  ⟨by decide, cleanLLMQuery_wrapFence _ (by decide) (by decide)⟩

/-! ### Edge-drop combinator lemmas (towards C10) -/

/-- The both-ends `dropWhile` combinator that `goTrim` instantiates with
`goIsSpace`; introduced to state its properties once. -/
def edgeDrop {α : Type} (p : α → Bool) (x : List α) : List α :=
  ((x.dropWhile p).reverse.dropWhile p).reverse

theorem goTrim_eq_edgeDrop (s : Str) : goTrim s = edgeDrop goIsSpace s := rfl

theorem dropWhile_eq_self_of_prefix {α : Type} (p : α → Bool)
    (x y : List α) (hpre : x <+: y) (hy : y.dropWhile p = y) :
    x.dropWhile p = x := by
  cases x with
  | nil => rfl
  | cons a t =>
    obtain ⟨r, rfl⟩ := hpre
    have ha : ¬ p a = true := by
      have h0 := List.dropWhile_eq_self_iff.mp hy (by simp)
      simpa using h0
    rw [List.dropWhile_cons_of_neg ha]

theorem edgeDrop_idem {α : Type} (p : α → Bool) (x : List α) :
    edgeDrop p (edgeDrop p x) = edgeDrop p x := by
  have hu : (x.dropWhile p).dropWhile p = x.dropWhile p :=
    List.dropWhile_idempotent p _
  have hwpre : edgeDrop p x <+: x.dropWhile p :=
    List.rdropWhile_prefix p (x.dropWhile p)
  have hdw : (edgeDrop p x).dropWhile p = edgeDrop p x :=
    dropWhile_eq_self_of_prefix p _ _ hwpre hu
  show List.rdropWhile p ((edgeDrop p x).dropWhile p) = edgeDrop p x
  rw [hdw]
  exact List.rdropWhile_idempotent p _

theorem goTrim_idem (s : Str) : goTrim (goTrim s) = goTrim s := by
  rw [goTrim_eq_edgeDrop, goTrim_eq_edgeDrop]
  exact edgeDrop_idem goIsSpace s

theorem edgeDrop_eq_self {α : Type} (p : α → Bool) (l : List α)
    (h : edgeDrop p l = l) :
    l.dropWhile p = l ∧ l.reverse.dropWhile p = l.reverse := by
  have hlen1 : (edgeDrop p l).length ≤ (l.dropWhile p).length :=
    (List.rdropWhile_prefix p (l.dropWhile p)).length_le
  have hlen2 : (l.dropWhile p).length ≤ l.length :=
    (List.dropWhile_suffix p).length_le
  have hlen : l.length = (edgeDrop p l).length := by rw [h]
  have hd : l.dropWhile p = l :=
    (List.dropWhile_suffix p).eq_of_length (by omega)
  refine ⟨hd, ?_⟩
  have h2 : l.rdropWhile p = l := by
    have e : edgeDrop p l = List.rdropWhile p (l.dropWhile p) := rfl
    rw [e, hd] at h
    exact h
  have h3 := congrArg List.reverse h2
  rwa [List.rdropWhile, List.reverse_reverse] at h3

theorem edgeDrop_eq_self_of {α : Type} (p : α → Bool) (l : List α)
    (h1 : l.dropWhile p = l) (h2 : l.reverse.dropWhile p = l.reverse) :
    edgeDrop p l = l := by
  unfold edgeDrop
  rw [h1, h2, List.reverse_reverse]

theorem edgeDrop_subset {α : Type} (p : α → Bool) (l : List α) :
    ∀ a ∈ edgeDrop p l, a ∈ l := by
  intro a ha
  have h1 : edgeDrop p l <+: l.dropWhile p :=
    List.rdropWhile_prefix p (l.dropWhile p)
  exact (List.dropWhile_suffix p).subset (h1.subset ha)

/-! ### Newline-freedom and join lemmas (towards C10) -/

theorem splitLines_no_mem_newline (s : Str) :
    ∀ l ∈ splitLines s, '\n' ∉ l := by
  induction s with
  | nil =>
    intro l hl
    simp only [splitLines, List.mem_singleton] at hl
    simp [hl]
  | cons c rest ih =>
    intro l hl
    by_cases hc : c = '\n'
    · subst hc
      rw [splitLines_newline] at hl
      rcases List.mem_cons.mp hl with rfl | hl2
      · simp
      · exact ih l hl2
    · cases h : splitLines rest with
      | nil => exact absurd h (splitLines_ne_nil rest)
      | cons l0 ls0 =>
        rw [splitLines_cons_ne c rest l0 ls0 hc h] at hl
        rcases List.mem_cons.mp hl with rfl | hl2
        · intro hm
          rcases List.mem_cons.mp hm with h1 | h1
          · exact hc h1.symm
          · exact ih l0 (by rw [h]; simp) h1
        · exact ih l (by rw [h]; simp [hl2])

theorem joinLines_cons_of_ne (l : Str) (ls : List Str) (h : ls ≠ []) :
    joinLines (l :: ls) = l ++ '\n' :: joinLines ls := by
  cases ls with
  | nil => contradiction
  | cons l2 ls3 => exact joinLines_cons l l2 ls3

theorem joinLines_concat (xs : List Str) (y : Str) (h : xs ≠ []) :
    joinLines (xs ++ [y]) = joinLines xs ++ '\n' :: y := by
  induction xs with
  | nil => contradiction
  | cons x xs2 ih =>
    cases xs2 with
    | nil =>
      rw [show ([x] ++ [y]) = [x, y] from rfl, joinLines_cons,
        joinLines_single, joinLines_single]
    | cons x2 xs3 =>
      rw [List.cons_append, joinLines_cons_of_ne x _ (by simp),
        ih (by simp), joinLines_cons_of_ne x _ (by simp)]
      simp

theorem reverse_joinLines (ls : List Str) :
    (joinLines ls).reverse = joinLines ((ls.reverse).map List.reverse) := by
  induction ls with
  | nil => rfl
  | cons l ls2 ih =>
    cases ls2 with
    | nil => simp [joinLines_single]
    | cons l2 ls3 =>
      rw [joinLines_cons, List.reverse_append,
        show ('\n' :: joinLines (l2 :: ls3)).reverse =
          (joinLines (l2 :: ls3)).reverse ++ ['\n'] by simp,
        ih]
      have hne : ((l2 :: ls3).reverse.map List.reverse) ≠ [] := by simp
      rw [show ((l :: l2 :: ls3).reverse.map List.reverse) =
        ((l2 :: ls3).reverse.map List.reverse) ++ [l.reverse] by simp,
        joinLines_concat _ _ hne, List.append_assoc]
      rfl

theorem dropWhile_joinLines (ls : List Str)
    (h : ∀ l ∈ ls, l.dropWhile goIsSpace = l) :
    (joinLines ls).dropWhile goIsSpace =
      joinLines (ls.dropWhile List.isEmpty) := by
  induction ls with
  | nil => rfl
  | cons l ls2 ih =>
    cases hl : l with
    | nil =>
      subst hl
      cases ls2 with
      | nil => rfl
      | cons l2 ls3 =>
        have hrhs : (([] : Str) :: l2 :: ls3).dropWhile List.isEmpty =
            (l2 :: ls3).dropWhile List.isEmpty :=
          List.dropWhile_cons_of_pos (by rfl)
        rw [joinLines_cons, List.nil_append,
          List.dropWhile_cons_of_pos (by decide),
          ih (fun x hx => h x (by simp [hx])), hrhs]
    | cons a t =>
      subst hl
      have ha : goIsSpace a = false := by
        have hfix := h (a :: t) (by simp)
        by_contra hpa
        rw [List.dropWhile_cons_of_pos (by simpa using hpa)] at hfix
        have hlen := congrArg List.length hfix
        have hle : (t.dropWhile goIsSpace).length ≤ t.length :=
          (List.dropWhile_suffix goIsSpace).length_le
        simp at hlen
        omega
      have hane : List.isEmpty (a :: t) = false := rfl
      cases ls2 with
      | nil =>
        rw [joinLines_single, List.dropWhile_cons_of_neg (by simp [ha]),
          List.dropWhile_cons_of_neg (by simp [hane])]
        rw [joinLines_single]
      | cons l2 ls3 =>
        rw [joinLines_cons, List.cons_append,
          List.dropWhile_cons_of_neg (by simp [ha]),
          List.dropWhile_cons_of_neg (by simp [hane]),
          joinLines_cons]
        rfl

theorem goTrim_joinLines (ls : List Str) (h : ∀ l ∈ ls, goTrim l = l) :
    goTrim (joinLines ls) = joinLines (edgeDrop List.isEmpty ls) := by
  have h1 : ∀ l ∈ ls, l.dropWhile goIsSpace = l := fun l hl =>
    (edgeDrop_eq_self goIsSpace l
      (by rw [← goTrim_eq_edgeDrop]; exact h l hl)).1
  have h2 : ∀ l ∈ ls, l.reverse.dropWhile goIsSpace = l.reverse := fun l hl =>
    (edgeDrop_eq_self goIsSpace l
      (by rw [← goTrim_eq_edgeDrop]; exact h l hl)).2
  show (((joinLines ls).dropWhile goIsSpace).reverse.dropWhile
    goIsSpace).reverse = joinLines (edgeDrop List.isEmpty ls)
  rw [dropWhile_joinLines ls h1, reverse_joinLines]
  have hP : ∀ l ∈ ((ls.dropWhile List.isEmpty).reverse.map List.reverse),
      l.dropWhile goIsSpace = l := by
    intro l hlm
    obtain ⟨l0, hl0, rfl⟩ := List.mem_map.mp hlm
    have hl0m : l0 ∈ ls :=
      (List.dropWhile_suffix List.isEmpty).subset (List.mem_reverse.mp hl0)
    exact h2 l0 hl0m
  rw [dropWhile_joinLines _ hP, reverse_joinLines]
  congr 1
  have hcomp : (List.isEmpty ∘ List.reverse) =
      (List.isEmpty : Str → Bool) := by
    funext x
    cases x with
    | nil => rfl
    | cons a t => simp
  have hX : ((ls.dropWhile List.isEmpty).reverse.map
        List.reverse).dropWhile List.isEmpty =
      ((ls.dropWhile List.isEmpty).reverse.dropWhile
        List.isEmpty).map List.reverse := by
    rw [List.dropWhile_map, hcomp]
  rw [hX, ← List.map_reverse, List.map_map]
  have hid : (List.reverse ∘ List.reverse) = (id : Str → Str) := by
    funext x
    simp
  rw [hid, List.map_id]
  rfl

/-! ### C10: idempotence of the relational Clean step -/

/-- C10: `cleanLLMQuery` is idempotent — its output consists of trimmed,
fence-free lines with no leading or trailing empty lines, on which a second
application changes nothing. -/
theorem cleanLLMQuery_idem (raw : Str) :
    cleanLLMQuery (cleanLLMQuery raw) = cleanLLMQuery raw := by
  have hfix : ∀ l ∈ ((splitLines raw).map goTrim).filter
      (fun l => !isFenceLine l), goTrim l = l := by
    intro l hl
    obtain ⟨l0, hl0, rfl⟩ := List.mem_map.mp (List.mem_of_mem_filter hl)
    exact goTrim_idem l0
  have hfence : ∀ l ∈ ((splitLines raw).map goTrim).filter
      (fun l => !isFenceLine l), isFenceLine l = false := by
    intro l hl
    have hmf := List.of_mem_filter hl
    simpa using hmf
  have hnl : ∀ l ∈ ((splitLines raw).map goTrim).filter
      (fun l => !isFenceLine l), '\n' ∉ l := by
    intro l hl
    obtain ⟨l0, hl0, rfl⟩ := List.mem_map.mp (List.mem_of_mem_filter hl)
    intro hmem
    have hsub : '\n' ∈ l0 := by
      rw [goTrim_eq_edgeDrop] at hmem
      exact edgeDrop_subset goIsSpace l0 _ hmem
    exact splitLines_no_mem_newline raw l0 hl0 hsub
  set ks := ((splitLines raw).map goTrim).filter (fun l => !isFenceLine l)
    with hks
  show cleanLLMQuery (goTrim (joinLines ks)) = goTrim (joinLines ks)
  rw [goTrim_joinLines ks hfix]
  have hsubset : ∀ l ∈ edgeDrop List.isEmpty ks, l ∈ ks :=
    edgeDrop_subset List.isEmpty ks
  by_cases hnil : edgeDrop List.isEmpty ks = []
  · rw [hnil]
    rfl
  · unfold cleanLLMQuery
    rw [splitLines_joinLines _ hnil (fun l hl => hnl l (hsubset l hl))]
    have hmap : (edgeDrop List.isEmpty ks).map goTrim =
        edgeDrop List.isEmpty ks := by
      rw [List.map_congr_left (fun l hl => hfix l (hsubset l hl))]
      exact List.map_id _
    have hfil : (edgeDrop List.isEmpty ks).filter (fun l => !isFenceLine l)
        = edgeDrop List.isEmpty ks :=
      List.filter_eq_self.mpr
        (fun l hl => by simp [hfence l (hsubset l hl)])
    rw [hmap, hfil,
      goTrim_joinLines _ (fun l hl => hfix l (hsubset l hl)),
      edgeDrop_idem]

/-! ### C8: Ask never pairs records with an error -/

theorem queryPostgres_excl (env : DBEnv) (name query : Str) :
    (QueryPostgres env name query).1 = [] ∨
      (QueryPostgres env name query).2 = none := by
  unfold QueryPostgres
  repeat' split
  all_goals simp

theorem execute_excl (env : DBEnv) (name command : Str) :
    (Execute env name command).2 = none ∨
      (Execute env name command).2 ≠ none := by
  exact Decidable.em _

theorem queryMongo_excl (env : DBEnv) (name dbName collection : Str)
    (filter : Option Json) :
    (QueryMongo env name dbName collection filter).1 = [] ∨
      (QueryMongo env name dbName collection filter).2 = none := by
  unfold QueryMongo
  repeat' split
  all_goals simp

theorem insertMongo_excl (env : DBEnv) (name dbName collection : Str)
    (document : Option Json) :
    (InsertMongo env name dbName collection document).1 = [] ∨
      (InsertMongo env name dbName collection document).2 = none := by
  unfold InsertMongo
  repeat' split
  all_goals simp

theorem updateMongo_excl (env : DBEnv) (name dbName collection : Str)
    (filter update : Option Json) :
    (UpdateMongo env name dbName collection filter update).1 = [] ∨
      (UpdateMongo env name dbName collection filter update).2 = none := by
  unfold UpdateMongo
  repeat' split
  all_goals simp

theorem deleteMongo_excl (env : DBEnv) (name dbName collection : Str)
    (filter : Option Json) :
    (DeleteMongo env name dbName collection filter).1 = [] ∨
      (DeleteMongo env name dbName collection filter).2 = none := by
  unfold DeleteMongo
  repeat' split
  all_goals simp

theorem aggregateMongo_excl (env : DBEnv) (name dbName collection : Str)
    (pipeline : Option (List Json)) :
    (AggregateMongo env name dbName collection pipeline).1 = [] ∨
      (AggregateMongo env name dbName collection pipeline).2 = none := by
  unfold AggregateMongo
  repeat' split
  all_goals simp

theorem askPostgres_excl (env : AskEnv) (targetDB : DBConfig)
    (userPrompt : Str) :
    (askPostgres env targetDB userPrompt).1 = [] ∨
      (askPostgres env targetDB userPrompt).2 = none := by
  unfold askPostgres
  dsimp only
  repeat' split
  all_goals first
    | apply queryPostgres_excl
    | simp

theorem askMongo_excl (env : AskEnv) (targetDB : DBConfig)
    (userPrompt : Str) :
    (askMongo env targetDB userPrompt).1 = [] ∨
      (askMongo env targetDB userPrompt).2 = none := by
  unfold askMongo
  dsimp only
  repeat' split
  all_goals first
    | apply queryMongo_excl
    | apply insertMongo_excl
    | apply updateMongo_excl
    | apply deleteMongo_excl
    | apply aggregateMongo_excl
    | simp

/-- C8: for every prompt and every behaviour of the generation backend (and
of the router, decoder and driver oracles), `Ask` returns either an empty
record slice or a nil error — never a non-empty record sequence together
with an error. -/
theorem Ask_exclusive (env : AskEnv) (userPrompt : Str) :
    (Ask env userPrompt).1 = [] ∨ (Ask env userPrompt).2 = none := by
  unfold Ask
  dsimp only
  repeat' split
  all_goals first
    | apply askPostgres_excl
    | apply askMongo_excl
    | simp

/-! ### C6: collection resolution in the Mongo branch of Ask -/

theorem append_ne_of_not_prefix (p x q : Str) (h : ¬ p <+: q) :
    p ++ x ≠ q := fun he => h ⟨x, he⟩

theorem pair_ne_infer_of_prefix (rows : List Rec) (p x : Str)
    (h : ¬ p <+: cs "could not infer MongoDB collection name from prompt") :
    (rows, some (p ++ x)) ≠
      (([] : List Rec),
        some (cs "could not infer MongoDB collection name from prompt")) := by
  intro he
  have h2 := congrArg Prod.snd he
  simp only [Option.some.injEq] at h2
  exact append_ne_of_not_prefix p x _ h h2

theorem pair_none_ne_infer (rows : List Rec) :
    (rows, (none : Option Str)) ≠
      (([] : List Rec),
        some (cs "could not infer MongoDB collection name from prompt")) := by
  intro he
  have h2 := congrArg Prod.snd he
  simp at h2

theorem pair_msg_ne_infer (rows : List Rec) (m : Str)
    (h : m ≠ cs "could not infer MongoDB collection name from prompt") :
    (rows, some m) ≠
      (([] : List Rec),
        some (cs "could not infer MongoDB collection name from prompt")) := by
  intro he
  have h2 := congrArg Prod.snd he
  simp only [Option.some.injEq] at h2
  exact h h2

theorem queryMongo_ne_infer (env : DBEnv) (name dbName coll : Str)
    (filter : Option Json) :
    QueryMongo env name dbName coll filter ≠
      ([], some (cs "could not infer MongoDB collection name from prompt")) := by
  unfold QueryMongo
  repeat' split
  all_goals first
    | exact pair_none_ne_infer _
    | exact pair_msg_ne_infer _ _ (by decide)
    | exact pair_ne_infer_of_prefix _ _ _ (by decide)

theorem insertMongo_ne_infer (env : DBEnv) (name dbName coll : Str)
    (document : Option Json) :
    InsertMongo env name dbName coll document ≠
      ([], some (cs "could not infer MongoDB collection name from prompt")) := by
  unfold InsertMongo
  repeat' split
  all_goals first
    | exact pair_none_ne_infer _
    | exact pair_msg_ne_infer _ _ (by decide)
    | exact pair_ne_infer_of_prefix _ _ _ (by decide)

theorem updateMongo_ne_infer (env : DBEnv) (name dbName coll : Str)
    (filter update : Option Json) :
    UpdateMongo env name dbName coll filter update ≠
      ([], some (cs "could not infer MongoDB collection name from prompt")) := by
  unfold UpdateMongo
  repeat' split
  all_goals first
    | exact pair_none_ne_infer _
    | exact pair_msg_ne_infer _ _ (by decide)
    | exact pair_ne_infer_of_prefix _ _ _ (by decide)

theorem deleteMongo_ne_infer (env : DBEnv) (name dbName coll : Str)
    (filter : Option Json) :
    DeleteMongo env name dbName coll filter ≠
      ([], some (cs "could not infer MongoDB collection name from prompt")) := by
  unfold DeleteMongo
  repeat' split
  all_goals first
    | exact pair_none_ne_infer _
    | exact pair_msg_ne_infer _ _ (by decide)
    | exact pair_ne_infer_of_prefix _ _ _ (by decide)

theorem aggregateMongo_ne_infer (env : DBEnv) (name dbName coll : Str)
    (pipeline : Option (List Json)) :
    AggregateMongo env name dbName coll pipeline ≠
      ([], some (cs "could not infer MongoDB collection name from prompt")) := by
  unfold AggregateMongo
  repeat' split
  all_goals first
    | exact pair_none_ne_infer _
    | exact pair_msg_ne_infer _ _ (by decide)
    | exact pair_ne_infer_of_prefix _ _ _ (by decide)

/-- A driver environment for concrete evaluations. -/
def c6DBEnv : DBEnv :=
  { pgPoolExists := fun _ => false,
    pgQueryOutcome := fun _ _ => Except.error [],
    pgExecOutcome := fun _ _ => Except.error [],
    mongoClientExists := fun _ => true,
    mongoFindOutcome := fun _ _ _ _ => Except.ok [],
    mongoInsertOutcome := fun _ _ _ _ => Except.ok (),
    mongoUpdateOutcome := fun _ _ _ _ _ => Except.ok (0, 0),
    mongoDeleteOutcome := fun _ _ _ _ => Except.ok 0,
    mongoAggOutcome := fun _ _ _ _ => Except.ok [] }

/-- An environment whose generation backend produces a find payload with a
non-empty collection field, but whose registry does not know the routed
store, so the pre-generation collection guess comes out empty. -/
def c6Env : AskEnv :=
  { allSchemas := cs "lms_db: courses(title, duration)",
    route := fun _ => (⟨cs "lms_db", cs "mongo", [], cs "lms"⟩, none),
    generate := fun _ => (cs "PAYLOAD", none),
    jsonParse := fun _ => some (Json.obj
      [(cs "operation", Json.jstr (cs "find")),
       (cs "collection", Json.jstr (cs "courses")),
       (cs "filter", Json.obj [])]),
    registeredDBs := fun _ => none,
    mongoSchema := fun _ => ([], none),
    dbenv := c6DBEnv }

/-- C6 counterexample: the generated payload's collection field is the
non-empty string `courses`, yet the call does not proceed to dispatch — it
fails with the collection-unresolved error, because in the source that
failure happens BEFORE generation, as soon as the pre-resolved schema-line
guess is empty. -/
theorem Ask_collection_cex :
    ((c6Env.jsonParse (cleanMongoText (c6Env.generate
        { Prompt := cs "find courses", Schema := c6Env.allSchemas,
          DBType := cs "mongo", QueryType := cs "mongo",
          CollectionVar := some (cs "x") }).1)).bind decodeMongoQuery).map
      (fun mq => mq.collection) = some (cs "courses") ∧
    Ask c6Env (cs "find courses") =
      ([], some (cs "could not infer MongoDB collection name from prompt")) := by
  constructor
  · rfl
  · rfl

/-- C6 amended: in the Mongo branch of `Ask`, collection resolution happens
before generation — the call fails with the collection-unresolved error
exactly when the pre-resolved schema-line guess
(`FindMostRelevantMongoCollection`) is empty; when the guess is non-empty
the call never fails with that error (an empty payload collection falls
back to the non-empty guess before dispatch). -/
theorem askMongo_collection_resolution (env : AskEnv) (targetDB : DBConfig)
    (userPrompt : Str) :
    (FindMostRelevantMongoCollection env userPrompt targetDB.name = [] →
      askMongo env targetDB userPrompt =
        ([], some (cs "could not infer MongoDB collection name from prompt"))) ∧
    (FindMostRelevantMongoCollection env userPrompt targetDB.name ≠ [] →
      askMongo env targetDB userPrompt ≠
        ([], some (cs "could not infer MongoDB collection name from prompt"))) := by
  constructor
  · intro h
    unfold askMongo
    dsimp only
    rw [if_pos h]
  · intro h
    unfold askMongo
    dsimp only
    rw [if_neg h]
    repeat' split
    all_goals first
      | apply queryMongo_ne_infer
      | apply insertMongo_ne_infer
      | apply updateMongo_ne_infer
      | apply deleteMongo_ne_infer
      | apply aggregateMongo_ne_infer
      | exact pair_ne_infer_of_prefix _ _ _ (by decide)

/-- C6 amended witness: the empty-guess half observed on the concrete
environment. -/
theorem askMongo_collection_resolution_witness :
    FindMostRelevantMongoCollection c6Env (cs "find courses")
      (cs "lms_db") = [] ∧
    askMongo c6Env ⟨cs "lms_db", cs "mongo", [], cs "lms"⟩
      (cs "find courses") =
      ([], some (cs "could not infer MongoDB collection name from prompt")) :=
  ⟨rfl, (askMongo_collection_resolution c6Env
    ⟨cs "lms_db", cs "mongo", [], cs "lms"⟩ (cs "find courses")).1 rfl⟩

end PrompterDB
